import Mathlib

/-!
Formal model of the source-code analysis and symbol-indexing engine of
`go-mcp` (`pkg/mcp/ast.go` and `pkg/mcp/lsp.go`), as a shallow embedding.

The Go AST is modelled by a fragment of `go/ast`: the node kinds that the
analyzer distinguishes (imports, function declarations, type specs, value
specs, if/for/range statements, case and comm clauses, binary expressions,
selectors, calls, struct/interface/function types).  `ast.Inspect` is
modelled by the pre-order node list `fileNodes`; every analysis in
`ast.go` is a fold/filter over that list, exactly as the Go code is a
switch inside an `ast.Inspect` callback.

Go `map` values are modelled as association lists with replace-in-place
insertion (`insertA`); the only map whose contents matter to any result
is `ASTAnalyzer.complexity`, which is read back only through the
order-insensitive sum `sumValues` (mirroring `range` over a Go map).

go/token file positions are carried inline on the nodes that the code
reads positions of (`Pos`, 1-based line/column), replacing the
`token.FileSet` indirection.
-/

namespace GoMcp

/-- go/token.Position: 1-based line and column of a node in its file. -/
structure Pos where
  line : Int
  col  : Int
deriving DecidableEq, Repr

/-- Binary operator token of a `*ast.BinaryExpr` (token.Token fragment). -/
inductive BinOp : Type where
  | add | sub | mul | quo
  | eql | neq | lss | gtr
  | land | lor
deriving DecidableEq, Repr

/-- Keyword token of a `*ast.GenDecl`: `const`, `var`, `import` or `type`. -/
inductive DeclTok : Type where
  | constTok | varTok | importTok | typeTok
deriving DecidableEq, Repr

mutual

/-- Fragment of go/ast expression nodes.  `ident` carries its position
(the only expression position the analyzer ever reads, in
`analyzeReferences`). -/
inductive Expr : Type where
  | ident (name : String) (pos : Pos)
  | basicLit (value : String)
  | selector (x : Expr) (sel : String)
  | binary (op : BinOp) (x y : Expr)
  | call (fn : Expr) (args : List Expr)
  | star (x : Expr)
  | arrayType (elt : Expr)
  | funcType (params results : List FieldDef)
  | structType (fields : List FieldDef)
  | interfaceType (methods : List FieldDef)
  | funcLit (body : List Stmt)

/-- go/ast.Field: names, type, optional doc comment group (a list of
comment lines) and optional tag.  Used for struct fields, interface
methods and function parameters/results, as in go/ast. -/
inductive FieldDef : Type where
  | mk (names : List String) (typ : Expr) (doc : Option (List String)) (tag : Option String)

/-- Fragment of go/ast statement nodes: every statement kind the
analyzer's switches distinguish, plus enough glue (blocks, assignments,
returns) to write real function bodies. -/
inductive Stmt : Type where
  | exprStmt (e : Expr)
  | assign (lhs rhs : List Expr)
  | returnStmt (results : List Expr)
  | block (stmts : List Stmt)
  | ifStmt (init : Option Stmt) (cond : Expr) (body : List Stmt) (els : Option Stmt)
  | forStmt (init : Option Stmt) (cond : Option Expr) (post : Option Stmt) (body : List Stmt)
  | rangeStmt (key value : Option Expr) (x : Expr) (body : List Stmt)
  | switchStmt (init : Option Stmt) (tag : Option Expr) (cases : List CaseClause)
  | selectStmt (comms : List CommClause)

/-- go/ast.CaseClause: one `case`/`default` arm of a switch. -/
inductive CaseClause : Type where
  | mk (exprs : List Expr) (body : List Stmt)

/-- go/ast.CommClause: one `case`/`default` arm of a select. -/
inductive CommClause : Type where
  | mk (comm : Option Stmt) (body : List Stmt)

end

/-- go/ast.ImportSpec: optional local name, quoted path literal, position. -/
structure ImportSpecData where
  name : Option String
  pathValue : String
  pos : Pos

/-- go/ast.ValueSpec: names, optional type, initializer values, positions.
A Go `nil` Values slice and an empty one are both modelled as `[]`. -/
structure ValueSpecData where
  names : List String
  typ : Option Expr
  values : List Expr
  pos : Pos
  endP : Pos

/-- go/ast.TypeSpec: name, underlying type expression, positions. -/
structure TypeSpecData where
  name : String
  typ : Expr
  pos : Pos
  endP : Pos

/-- go/ast.Spec: the specs that can appear in a GenDecl. -/
inductive Spec : Type where
  | importSpec (d : ImportSpecData)
  | valueSpec (d : ValueSpecData)
  | typeSpec (d : TypeSpecData)

/-- go/ast.FuncDecl: name (with its position), doc comment group,
optional receiver field, parameter/result fields, body, span. -/
structure FuncDecl where
  name : String
  namePos : Pos
  doc : Option (List String)
  recv : Option FieldDef
  params : List FieldDef
  results : List FieldDef
  body : List Stmt
  pos : Pos
  endP : Pos

/-- go/ast.Decl: a function declaration or a generic declaration.
The fragment keeps declarations at file top level (go/ast also allows
a GenDecl nested in a function body via DeclStmt; the analyzer treats
both through the same `ast.Inspect` cases). -/
inductive Decl : Type where
  | funcDecl (fd : FuncDecl)
  | genDecl (tok : DeclTok) (specs : List Spec)

/-- go/ast.File: package name (with position), declarations in source
order, and the line of `file.End()` (what `fileSet.Position(file.End()).Line`
returns). -/
structure File where
  pkgName : String
  pkgNamePos : Pos
  decls : List Decl
  endLine : Int

/-- A node of the walked tree, as seen by an `ast.Inspect` callback.
`commentN` stands for a visited `*ast.CommentGroup` (its lines). -/
inductive Node : Type where
  | exprN (e : Expr)
  | stmtN (s : Stmt)
  | fieldN (fd : FieldDef)
  | caseN (c : CaseClause)
  | commN (c : CommClause)
  | specN (s : Spec)
  | declN (d : Decl)
  | commentN (lines : List String)

/-- Nodes contributed by a doc comment group, if present. -/
def docNodes : Option (List String) → List Node
  | none => []
  | some ls => [.commentN ls]

mutual

/-- Pre-order node list of an expression subtree (the visit order of
`ast.Inspect`). -/
def exprNodes : Expr → List Node
  | .ident n p => [.exprN (.ident n p)]
  | .basicLit v => [.exprN (.basicLit v)]
  | .selector x s => .exprN (.selector x s) :: exprNodes x
  | .binary op x y => .exprN (.binary op x y) :: (exprNodes x ++ exprNodes y)
  | .call f args => .exprN (.call f args) :: (exprNodes f ++ exprListNodes args)
  | .star x => .exprN (.star x) :: exprNodes x
  | .arrayType e => .exprN (.arrayType e) :: exprNodes e
  | .funcType ps rs => .exprN (.funcType ps rs) :: (fieldListNodes ps ++ fieldListNodes rs)
  | .structType fs => .exprN (.structType fs) :: fieldListNodes fs
  | .interfaceType ms => .exprN (.interfaceType ms) :: fieldListNodes ms
  | .funcLit body => .exprN (.funcLit body) :: stmtListNodes body

/-- Pre-order node list of a field (its doc group, then its type). -/
def fieldNodes : FieldDef → List Node
  | .mk names typ doc tag =>
      .fieldN (.mk names typ doc tag) :: (docNodes doc ++ exprNodes typ)

/-- Pre-order node list of a statement subtree. -/
def stmtNodes : Stmt → List Node
  | .exprStmt e => .stmtN (.exprStmt e) :: exprNodes e
  | .assign l r => .stmtN (.assign l r) :: (exprListNodes l ++ exprListNodes r)
  | .returnStmt rs => .stmtN (.returnStmt rs) :: exprListNodes rs
  | .block ss => .stmtN (.block ss) :: stmtListNodes ss
  | .ifStmt init cond body els =>
      .stmtN (.ifStmt init cond body els) ::
        (optStmtNodes init ++ exprNodes cond ++ stmtListNodes body ++ optStmtNodes els)
  | .forStmt init cond post body =>
      .stmtN (.forStmt init cond post body) ::
        (optStmtNodes init ++ optExprNodes cond ++ optStmtNodes post ++ stmtListNodes body)
  | .rangeStmt k v x body =>
      .stmtN (.rangeStmt k v x body) ::
        (optExprNodes k ++ optExprNodes v ++ exprNodes x ++ stmtListNodes body)
  | .switchStmt init tag cases =>
      .stmtN (.switchStmt init tag cases) ::
        (optStmtNodes init ++ optExprNodes tag ++ caseListNodes cases)
  | .selectStmt comms => .stmtN (.selectStmt comms) :: commListNodes comms

/-- Pre-order node list of a case clause. -/
def caseNodes : CaseClause → List Node
  | .mk exprs body => .caseN (.mk exprs body) :: (exprListNodes exprs ++ stmtListNodes body)

/-- Pre-order node list of a comm clause. -/
def commNodes : CommClause → List Node
  | .mk comm body => .commN (.mk comm body) :: (optStmtNodes comm ++ stmtListNodes body)

/-- Node lists of a list of expressions, concatenated in order. -/
def exprListNodes : List Expr → List Node
  | [] => []
  | e :: es => exprNodes e ++ exprListNodes es

/-- Node lists of a list of statements, concatenated in order. -/
def stmtListNodes : List Stmt → List Node
  | [] => []
  | s :: ss => stmtNodes s ++ stmtListNodes ss

/-- Node lists of a list of fields, concatenated in order. -/
def fieldListNodes : List FieldDef → List Node
  | [] => []
  | f :: fs => fieldNodes f ++ fieldListNodes fs

/-- Node lists of a list of case clauses, concatenated in order. -/
def caseListNodes : List CaseClause → List Node
  | [] => []
  | c :: cs => caseNodes c ++ caseListNodes cs

/-- Node lists of a list of comm clauses, concatenated in order. -/
def commListNodes : List CommClause → List Node
  | [] => []
  | c :: cs => commNodes c ++ commListNodes cs

/-- Node list of an optional expression. -/
def optExprNodes : Option Expr → List Node
  | none => []
  | some e => exprNodes e

/-- Node list of an optional statement. -/
def optStmtNodes : Option Stmt → List Node
  | none => []
  | some s => stmtNodes s

end

/-- Node list of a spec. -/
def specNodes : Spec → List Node
  | .importSpec d => [.specN (.importSpec d)]
  | .valueSpec d => .specN (.valueSpec d) :: (optExprNodes d.typ ++ exprListNodes d.values)
  | .typeSpec d => .specN (.typeSpec d) :: exprNodes d.typ

/-- Node list of an optional receiver field. -/
def optFieldNodes : Option FieldDef → List Node
  | none => []
  | some fd => fieldNodes fd

/-- Pre-order node list of `ast.Inspect` run on a FuncDecl (the node
itself, its doc group, receiver, parameters, results, body).
Declaration-name identifiers are not separate nodes in this fragment;
the only consumer of such nodes is `analyzeReferences`, whose lookups
are over the always-empty `Defs`/`Uses` maps. -/
def funcDeclNodes (fd : FuncDecl) : List Node :=
  .declN (.funcDecl fd) ::
    (docNodes fd.doc ++ optFieldNodes fd.recv ++ fieldListNodes fd.params ++
      fieldListNodes fd.results ++ stmtListNodes fd.body)

/-- Node list of a top-level declaration. -/
def declNodes : Decl → List Node
  | .funcDecl fd => funcDeclNodes fd
  | .genDecl tok specs => .declN (.genDecl tok specs) :: (specs.map specNodes).flatten

/-- Pre-order node list of `ast.Inspect` run on a whole file. -/
def fileNodes (f : File) : List Node :=
  (f.decls.map declNodes).flatten

/-- `file.Imports`: all import specs of the file, in source order
(go/parser collects these from the import declarations). -/
def fileImports (f : File) : List ImportSpecData :=
  (f.decls.map (fun d =>
    match d with
    | .genDecl _ specs =>
        specs.filterMap (fun s =>
          match s with
          | .importSpec i => some i
          | _ => none)
    | _ => [])).flatten

/-! ## Result records (pkg/mcp/types.go and pkg/mcp/lsp.go)

Fields that no code path of the analyzer ever assigns (and which
therefore always hold their zero value) are omitted from the records:
`FunctionInfo.IsMethod/Receiver/Parameters/Returns`,
`TypeInfo.Doc/Implements`, `FieldInfo.IsEmbed`,
`VariableInfo.Value/Doc/Scope`, `ReferenceInfo.Scope`. -/

/-- LSP Position (0-based line/character), as built from a 1-based
`token.Position` by subtracting 1 from line and column. -/
structure Position where
  line : Int
  character : Int
deriving DecidableEq, Repr

/-- Text range with start and end positions. -/
structure Range where
  start : Position
  endP : Position
deriving DecidableEq, Repr

/-- A position in a document (`Location` in lsp.go). -/
structure Location where
  uri : String
  range : Range
deriving DecidableEq, Repr

/-- ImportInfo: import path, local alias (empty if none), used flag. -/
structure ImportInfo where
  path : String
  name : String
  used : Bool
deriving DecidableEq, Repr

/-- FunctionInfo: the fields `analyzeFunctions` fills in. -/
structure FunctionInfo where
  name : String
  signature : String
  doc : String
  location : Location
  complexity : Nat
deriving DecidableEq, Repr

/-- FieldInfo: one struct field record (`analyzeStructFields`). -/
structure FieldInfo where
  name : String
  typ : String
  doc : String
  tags : String
deriving DecidableEq, Repr

/-- MethodInfo: one interface method record (`analyzeInterfaceMethods`). -/
structure MethodInfo where
  name : String
  signature : String
  doc : String
deriving DecidableEq, Repr

/-- TypeInfo: the fields `analyzeTypes` fills in. -/
structure TypeInfo where
  name : String
  kind : String
  location : Location
  fields : List FieldInfo
  methods : List MethodInfo
deriving DecidableEq, Repr

/-- VariableInfo: the fields `analyzeVariables` fills in. -/
structure VariableInfo where
  name : String
  typ : String
  location : Location
  constant : Bool
deriving DecidableEq, Repr

/-- ReferenceInfo: definition site plus usage locations. -/
structure ReferenceInfo where
  name : String
  kind : String
  location : Location
  usedAt : List Location
deriving DecidableEq, Repr

/-- Diagnostic: severity, message, location, rule code, source tag. -/
structure Diagnostic where
  severity : String
  message : String
  location : Location
  code : String
  source : String
deriving DecidableEq, Repr

/-- CodeMetrics: the aggregate counters of `calculateMetrics`. -/
structure CodeMetrics where
  linesOfCode : Int
  commentLines : Nat
  functionCount : Nat
  complexityScore : Nat
  interfaceCount : Nat
  structCount : Nat
  testCount : Nat
deriving DecidableEq, Repr

/-- AnalysisResult: the full output of one `AnalyzeFile` call.
(`vars` is the Go `Variables` field; `variables` is a reserved word in
Lean.) -/
structure AnalysisResult where
  imports : List ImportInfo
  functions : List FunctionInfo
  types : List TypeInfo
  vars : List VariableInfo
  references : List ReferenceInfo
  diagnostics : List Diagnostic
  metrics : CodeMetrics
deriving DecidableEq, Repr

/-! ## Go maps as association lists

A Go `map[string]V` is modelled as a `List (String × V)`;
`insertA` is `m[k] = v` (replace in place or append) and `lookupA` is
`m[k]`.  Iteration order of a Go map is unspecified; the model only
ever iterates a map through the order-insensitive `sumValues`, or over
maps that are provably empty. -/

/-- Map lookup `m[k]`. -/
def lookupA {α : Type} : List (String × α) → String → Option α
  | [], _ => none
  | (k', v) :: t, k => if k' = k then some v else lookupA t k

/-- Map assignment `m[k] = v`: replace the entry in place, or append. -/
def insertA {α : Type} : List (String × α) → String → α → List (String × α)
  | [], k, v => [(k, v)]
  | (k', v') :: t, k, v => if k' = k then (k, v) :: t else (k', v') :: insertA t k v

/-- Sequence of map assignments, one per pair. -/
def insertAll {α : Type} (m : List (String × α)) (l : List (String × α)) :
    List (String × α) :=
  l.foldl (fun m kv => insertA m kv.1 kv.2) m

/-- Sum of the values of a map (`for _, v := range m { s += v }`). -/
def sumValues (m : List (String × Nat)) : Nat :=
  (m.map (fun kv => kv.2)).sum

/-! ## The analyzer and its type information (NewASTAnalyzer) -/

/-- A go/types object, as far as `getIdentKind` and `isImportUsed`
distinguish them.  `pkgName` carries `Imported().Path()`. -/
inductive TypesObject : Type where
  | pkgName (name : String) (importedPath : String)
  | funcObj (name : String)
  | varObj (name : String)
  | constObj (name : String)
  | typeNameObj (name : String)
  | labelObj (name : String)
  | builtinObj (name : String)
  | nilObj (name : String)
deriving DecidableEq, Repr

/-- `obj.Name()`. -/
def TypesObject.objName : TypesObject → String
  | .pkgName n _ => n
  | .funcObj n => n
  | .varObj n => n
  | .constObj n => n
  | .typeNameObj n => n
  | .labelObj n => n
  | .builtinObj n => n
  | .nilObj n => n

/-- The `Defs` and `Uses` maps of `types.Info` (the `Types` and
`Implicits` maps are created too but never read by any analysis).
go/types keys these maps by `*ast.Ident` node; since no code path of
the repository ever inserts into them, the model keys them by the
identifier's name, which changes nothing on the always-empty maps. -/
structure TypesInfo where
  defs : List (String × TypesObject)
  uses : List (String × TypesObject)
deriving Repr

/-- ASTAnalyzer: type information plus the per-instance
function-name → complexity map that `analyzeFunctions` repopulates and
`calculateMetrics` sums.  (The `fileSet` is replaced by inline node
positions, and the `packages` map is only written by `AnalyzePackage`,
which no claim involves.) -/
structure ASTAnalyzer where
  typeInfo : TypesInfo
  complexity : List (String × Nat)
deriving Repr

/-- NewASTAnalyzer: empty type information, empty complexity map. -/
def NewASTAnalyzer : ASTAnalyzer :=
  { typeInfo := { defs := [], uses := [] }, complexity := [] }

/-! ## String helpers of ast.go -/

/-- The double-quote character (code point 34). -/
def quoteChar : Char := Char.ofNat 34

/-- A string literal as it appears in source: the text surrounded by
double quotes (used to build `ImportSpec.Path.Value` and basic string
literals in the examples). -/
def quoted (s : String) : String :=
  quoteChar.toString ++ s ++ quoteChar.toString

/-- `strings.Trim` of a string with the cutset holding only the
double-quote character: strip leading and trailing quote characters. -/
def trimQuotes (s : String) : String :=
  String.mk (((s.toList.dropWhile (fun c => c = quoteChar)).reverse.dropWhile
    (fun c => c = quoteChar)).reverse)

/-- `ast.IsExported`: the name starts with an upper-case letter
(ASCII model of `unicode.IsUpper` on the first rune). -/
def isExported (name : String) : Bool :=
  match name.toList with
  | [] => false
  | c :: _ => c.isUpper

/-- `(*ast.CommentGroup).Text()` on an optional group: empty string for
`nil`, otherwise the comment lines joined by newlines with a trailing
newline. -/
def commentText : Option (List String) → String
  | none => ""
  | some [] => ""
  | some ls => String.intercalate "\n" ls ++ "\n"

/-- `fmt.Sprintf("%T", e)`: the dynamic Go type name of the node, used
by the default cases of `getTypeString` and `analyzeTypes`. -/
def goTypeName : Expr → String
  | .ident _ _ => "*ast.Ident"
  | .basicLit _ => "*ast.BasicLit"
  | .selector _ _ => "*ast.SelectorExpr"
  | .binary _ _ _ => "*ast.BinaryExpr"
  | .call _ _ => "*ast.CallExpr"
  | .star _ => "*ast.StarExpr"
  | .arrayType _ => "*ast.ArrayType"
  | .funcType _ _ => "*ast.FuncType"
  | .structType _ => "*ast.StructType"
  | .interfaceType _ => "*ast.InterfaceType"
  | .funcLit _ => "*ast.FuncLit"

/-- Any list has positive `sizeOf` (termination measure helper). -/
theorem sizeOf_list_pos {α : Type} [SizeOf α] (l : List α) : 0 < sizeOf l := by
  cases l <;> simp_arith

mutual

/-- `getTypeString` on a non-nil expression (ast.go). -/
def getTypeStringE : Expr → String
  | .ident n _ => n
  | .star x => "*" ++ getTypeStringE x
  | .arrayType e => "[]" ++ getTypeStringE e
  | .interfaceType _ => "interface\x7b\x7d"
  | .selector x s => getTypeStringE x ++ "." ++ s
  | .structType _ => "struct\x7b...\x7d"
  | .funcType ps rs => getFunctionTypeSignature ps rs
  | e => goTypeName e
termination_by e => sizeOf e

/-- The per-field strings of `getFunctionTypeSignature`'s loops: a
field with no names contributes its type, otherwise one
`"name type"` string per name. -/
def fieldStrings : List FieldDef → List String
  | [] => []
  | .mk names typ _ _ :: fs =>
      (if names.isEmpty then [getTypeStringE typ]
       else names.map (fun n => n ++ " " ++ getTypeStringE typ)) ++ fieldStrings fs
termination_by fs => sizeOf fs

/-- `getFunctionTypeSignature` (ast.go): `"(params) returns"` with the
result part empty / single / parenthesized. -/
def getFunctionTypeSignature (ps rs : List FieldDef) : String :=
  let params := fieldStrings ps
  let returns := fieldStrings rs
  let returnStr :=
    match returns with
    | [] => ""
    | [r] => " " ++ r
    | _ => " (" ++ String.intercalate ", " returns ++ ")"
  "(" ++ String.intercalate ", " params ++ ")" ++ returnStr
termination_by sizeOf ps + sizeOf rs
decreasing_by
  all_goals
    simp_wf
    have h1 := sizeOf_list_pos (α := FieldDef) ps
    have h2 := sizeOf_list_pos (α := FieldDef) rs
    omega

end

/-- `getTypeString` (ast.go): `nil` gives "unknown". -/
def getTypeString : Option Expr → String
  | none => "unknown"
  | some e => getTypeStringE e

/-- `getFunctionSignature` (ast.go): receiver (if any), name, type. -/
def getFunctionSignature (fd : FuncDecl) : String :=
  let receiver :=
    match fd.recv with
    | some (.mk _ typ _ _) => "(" ++ getTypeStringE typ ++ ") "
    | none => ""
  "func " ++ receiver ++ fd.name ++ getFunctionTypeSignature fd.params fd.results

/-- `getIdentKind` (ast.go). -/
def getIdentKind : TypesObject → String
  | .funcObj _ => "function"
  | .varObj _ => "variable"
  | .constObj _ => "constant"
  | .typeNameObj _ => "type"
  | .pkgName _ _ => "package"
  | .labelObj _ => "label"
  | .builtinObj _ => "builtin"
  | .nilObj _ => "nil"

/-! ## Locations -/

/-- Location spanning two node positions (start and end converted to
0-based coordinates), with the file's package name as URI, exactly as
the analyzer builds them. -/
def locationOf (f : File) (pos endP : Pos) : Location :=
  { uri := f.pkgName
    range := { start := { line := pos.line - 1, character := pos.col - 1 }
               endP := { line := endP.line - 1, character := endP.col - 1 } } }

/-- Location at one position extended by a name/path length on the same
line (the shape used for diagnostics and references). -/
def pointLocation (f : File) (pos : Pos) (len : Nat) : Location :=
  { uri := f.pkgName
    range := { start := { line := pos.line - 1, character := pos.col - 1 }
               endP := { line := pos.line - 1, character := pos.col - 1 + (len : Int) } } }

/-! ## The analyses of AnalyzeFile -/

/-- The per-node test of `isImportUsed`'s `ast.Inspect` callback: the
node is a selector whose base identifier resolves through
`typeInfo.Uses` to a package name whose imported path is `importPath`. -/
def importUseCheck (a : ASTAnalyzer) (importPath : String) (n : Node) : Bool :=
  match n with
  | .exprN (.selector (.ident x _) _) =>
      match lookupA a.typeInfo.uses x with
      | some (.pkgName _ p) => p == importPath
      | _ => false
  | _ => false

/-- `isImportUsed` (ast.go): some walked node passes `importUseCheck`. -/
def isImportUsed (a : ASTAnalyzer) (f : File) (importPath : String) : Bool :=
  (fileNodes f).any (importUseCheck a importPath)

/-- `analyzeImports` (ast.go): one ImportInfo per `file.Imports` entry. -/
def analyzeImports (a : ASTAnalyzer) (f : File) : List ImportInfo :=
  (fileImports f).map (fun imp =>
    { path := trimQuotes imp.pathValue
      name := imp.name.getD ""
      used := isImportUsed a f (trimQuotes imp.pathValue) })

/-- The `n.(*ast.FuncDecl)` type assertion on a walked node. -/
def funcDeclOf : Node → Option FuncDecl
  | .declN (.funcDecl fd) => some fd
  | _ => none

/-- The FuncDecl nodes found by `ast.Inspect`, in visit order. -/
def collectFuncDecls (f : File) : List FuncDecl :=
  (fileNodes f).filterMap funcDeclOf

/-- The node kinds that increment `calculateFunctionComplexity`'s
counter: `*ast.IfStmt`, `*ast.ForStmt`, `*ast.RangeStmt`,
`*ast.CaseClause`, `*ast.CommClause`, `*ast.BinaryExpr`. -/
def isComplexityNode : Node → Bool
  | .stmtN (.ifStmt _ _ _ _) => true
  | .stmtN (.forStmt _ _ _ _) => true
  | .stmtN (.rangeStmt _ _ _ _) => true
  | .caseN _ => true
  | .commN _ => true
  | .exprN (.binary _ _ _) => true
  | _ => false

/-- `calculateFunctionComplexity` (ast.go): base 1, plus 1 for every
walked node of a counted kind in the function's subtree. -/
def calculateFunctionComplexity (fd : FuncDecl) : Nat :=
  1 + (funcDeclNodes fd).countP isComplexityNode

/-- The FunctionInfo built for one FuncDecl by `analyzeFunctions`. -/
def functionInfoOf (f : File) (fd : FuncDecl) : FunctionInfo :=
  { name := fd.name
    signature := getFunctionSignature fd
    doc := commentText fd.doc
    location := locationOf f fd.pos fd.endP
    complexity := calculateFunctionComplexity fd }

/-- `analyzeFunctions` (ast.go): collects one FunctionInfo per
FuncDecl and stores `a.complexity[fn.Name.Name] = complexity` for each,
in visit order. -/
def analyzeFunctions (a : ASTAnalyzer) (f : File) : List FunctionInfo × ASTAnalyzer :=
  let fds := collectFuncDecls f
  (fds.map (functionInfoOf f),
   { a with
      complexity :=
        insertAll a.complexity
          (fds.map (fun fd => (fd.name, calculateFunctionComplexity fd))) })

/-- `analyzeStructFields` (ast.go): one FieldInfo per field name. -/
def analyzeStructFields (fields : List FieldDef) : List FieldInfo :=
  (fields.map (fun fld =>
    match fld with
    | .mk names typ doc tag =>
        names.map (fun n =>
          ({ name := n
             typ := getTypeStringE typ
             doc := commentText doc
             tags := tag.getD "" } : FieldInfo)))).flatten

/-- `analyzeInterfaceMethods` (ast.go): one MethodInfo per named method
whose type is a function type. -/
def analyzeInterfaceMethods (methods : List FieldDef) : List MethodInfo :=
  methods.filterMap (fun m =>
    match m with
    | .mk (n :: _) (.funcType ps rs) doc _ =>
        some { name := n
               signature := getFunctionTypeSignature ps rs
               doc := commentText doc }
    | _ => none)

/-- The TypeInfo built for one TypeSpec by `analyzeTypes`. -/
def typeInfoOf (f : File) (d : TypeSpecData) : TypeInfo :=
  match d.typ with
  | .structType fields =>
      { name := d.name, kind := "struct", location := locationOf f d.pos d.endP
        fields := analyzeStructFields fields, methods := [] }
  | .interfaceType methods =>
      { name := d.name, kind := "interface", location := locationOf f d.pos d.endP
        fields := [], methods := analyzeInterfaceMethods methods }
  | t =>
      { name := d.name, kind := goTypeName t, location := locationOf f d.pos d.endP
        fields := [], methods := [] }

/-- The `*ast.TypeSpec` case test on a walked node. -/
def typeSpecOf : Node → Option TypeSpecData
  | .specN (.typeSpec d) => some d
  | _ => none

/-- The TypeSpec nodes found by `ast.Inspect`, in visit order. -/
def collectTypeSpecs (f : File) : List TypeSpecData :=
  (fileNodes f).filterMap typeSpecOf

/-- `analyzeTypes` (ast.go). -/
def analyzeTypes (f : File) : List TypeInfo :=
  (collectTypeSpecs f).map (typeInfoOf f)

/-- The `*ast.ValueSpec` case test on a walked node. -/
def valueSpecOf : Node → Option ValueSpecData
  | .specN (.valueSpec d) => some d
  | _ => none

/-- The ValueSpec nodes found by `ast.Inspect`, in visit order. -/
def collectValueSpecs (f : File) : List ValueSpecData :=
  (fileNodes f).filterMap valueSpecOf

/-- The VariableInfos built from one ValueSpec by `analyzeVariables`:
one per declared name.  `Constant` is
`node.Values != nil && len(node.Values) > 0` (a nil and an empty Values
slice are both `[]` in the model). -/
def specVariables (f : File) (d : ValueSpecData) : List VariableInfo :=
  d.names.map (fun n =>
    { name := n
      typ := getTypeString d.typ
      location := locationOf f d.pos d.endP
      constant := !d.values.isEmpty })

/-- `analyzeVariables` (ast.go). -/
def analyzeVariables (f : File) : List VariableInfo :=
  ((collectValueSpecs f).map (specVariables f)).flatten

/-- The identifier nodes found by `ast.Inspect`, with their positions. -/
def identsOf (f : File) : List (String × Pos) :=
  (fileNodes f).filterMap (fun n =>
    match n with
    | .exprN (.ident name p) => some (name, p)
    | _ => none)

/-- The definition-pass step of `analyzeReferences`: an identifier with
a `Defs` entry inserts a fresh ReferenceInfo under its name. -/
def refDefStep (a : ASTAnalyzer) (f : File) (m : List (String × ReferenceInfo))
    (np : String × Pos) : List (String × ReferenceInfo) :=
  match lookupA a.typeInfo.defs np.1 with
  | some obj =>
      insertA m np.1
        { name := np.1
          kind := getIdentKind obj
          location := pointLocation f np.2 np.1.length
          usedAt := [] }
  | none => m

/-- The use-pass step of `analyzeReferences`: an identifier with a
`Uses` entry whose object name is in the map appends a usage location. -/
def refUseStep (a : ASTAnalyzer) (f : File) (m : List (String × ReferenceInfo))
    (np : String × Pos) : List (String × ReferenceInfo) :=
  match lookupA a.typeInfo.uses np.1 with
  | some obj =>
      match lookupA m obj.objName with
      | some ref =>
          insertA m obj.objName
            { ref with usedAt := ref.usedAt ++ [pointLocation f np.2 np.1.length] }
      | none => m
  | none => m

/-- `analyzeReferences` (ast.go): the definition pass builds `refMap`,
the use pass attaches usage locations, and the map is emitted as a
slice.  (Go ranges over the map in unspecified order; on every
reachable analyzer state `Defs` is empty, so the emitted slice is empty
and the order is immaterial.) -/
def analyzeReferences (a : ASTAnalyzer) (f : File) : List ReferenceInfo :=
  ((identsOf f).foldl (refUseStep a f)
      ((identsOf f).foldl (refDefStep a f) [])).map (fun kv => kv.2)

/-- `calculateMetrics` (ast.go): line count from `file.End()`, one
walk incrementing per-kind counters, then the running total of the
per-instance complexity map. -/
def calculateMetrics (a : ASTAnalyzer) (f : File) : CodeMetrics :=
  { linesOfCode := f.endLine
    commentLines := ((fileNodes f).map (fun n =>
        match n with
        | .commentN ls => ls.length
        | _ => 0)).sum
    functionCount := (fileNodes f).countP (fun n =>
        match n with
        | .declN (.funcDecl _) => true
        | _ => false)
    testCount := (fileNodes f).countP (fun n =>
        match n with
        | .declN (.funcDecl fd) => fd.name.startsWith "Test"
        | _ => false)
    structCount := (fileNodes f).countP (fun n =>
        match n with
        | .specN (.typeSpec d) =>
            match d.typ with
            | .structType _ => true
            | _ => false
        | _ => false)
    interfaceCount := (fileNodes f).countP (fun n =>
        match n with
        | .specN (.typeSpec d) =>
            match d.typ with
            | .interfaceType _ => true
            | _ => false
        | _ => false)
    complexityScore := sumValues a.complexity }

/-- The warning diagnostic for one unused import (`runDiagnostics`). -/
def unusedImportDiag (f : File) (imp : ImportSpecData) : Diagnostic :=
  let path := trimQuotes imp.pathValue
  { severity := "warning"
    message := "Unused import: " ++ path
    location := pointLocation f imp.pos path.length
    code := "unused-import"
    source := "go-analyzer" }

/-- The info diagnostic for one undocumented exported function
(`runDiagnostics`). -/
def missingDocDiag (f : File) (fd : FuncDecl) : Diagnostic :=
  { severity := "info"
    message := "Exported function " ++ fd.name ++ " lacks documentation"
    location := pointLocation f fd.namePos fd.name.length
    code := "missing-doc"
    source := "go-analyzer" }

/-- The unused-import rule of `runDiagnostics`: one warning per
file import whose `isImportUsed` check fails. -/
def unusedImportRule (a : ASTAnalyzer) (f : File) : List Diagnostic :=
  (fileImports f).filterMap (fun imp =>
    if isImportUsed a f (trimQuotes imp.pathValue) then none
    else some (unusedImportDiag f imp))

/-- The missing-documentation rule of `runDiagnostics`: one info per
exported FuncDecl with a nil doc. -/
def missingDocRule (f : File) : List Diagnostic :=
  (fileNodes f).filterMap (fun n =>
    match n with
    | .declN (.funcDecl fd) =>
        if isExported fd.name && fd.doc.isNone then some (missingDocDiag f fd)
        else none
    | _ => none)

/-- `runDiagnostics` (ast.go): the unused-import rule over
`file.Imports`, then the missing-documentation rule over the walked
FuncDecls. -/
def runDiagnostics (a : ASTAnalyzer) (f : File) : List Diagnostic :=
  unusedImportRule a f ++ missingDocRule f

/-- `AnalyzeFile` (ast.go): the full pipeline, in source order.  The Go
method also returns an error which is always nil; the state component
is the analyzer after `analyzeFunctions` updated the complexity map
(which `calculateMetrics` then reads). -/
def AnalyzeFile (a : ASTAnalyzer) (f : File) : AnalysisResult × ASTAnalyzer :=
  let imports := analyzeImports a f
  let fs := analyzeFunctions a f
  let types := analyzeTypes f
  let vars := analyzeVariables f
  let references := analyzeReferences a f
  let metrics := calculateMetrics fs.2 f
  let diagnostics := runDiagnostics a f
  ({ imports := imports, functions := fs.1, types := types, vars := vars
     references := references, diagnostics := diagnostics, metrics := metrics },
   fs.2)

/-- `AnalyzeDependencies` (ast.go): maps the file's package name to the
list of its used import paths (empty map when nothing is used). -/
def AnalyzeDependencies (a : ASTAnalyzer) (f : File) : List (String × List String) :=
  (fileImports f).foldl (fun deps imp =>
    let path := trimQuotes imp.pathValue
    if isImportUsed a f path then
      match lookupA deps f.pkgName with
      | some l => insertA deps f.pkgName (l ++ [path])
      | none => insertA deps f.pkgName [path]
    else deps) []

/-! ## The language server (pkg/mcp/lsp.go)

The parser adapter (`go/parser.ParseFile`) is a supplied capability: it
is passed in as a function `P : String → String → Except String File`
from (uri, content) to a parse tree or a syntax-error message.  The
`sync.RWMutex` and the shared `token.FileSet` have no observable effect
on the modelled state and are omitted. -/

/-- SymbolInfo (lsp.go): name, kind, location, signature (the
`Container` field is never assigned).  `signature` is the Go zero value
`""` for type symbols. -/
structure SymbolInfo where
  name : String
  kind : String
  location : Location
  signature : String
deriving DecidableEq, Repr

/-- Document (lsp.go): uri, text, parse tree, extracted symbols,
version. -/
structure Document where
  uri : String
  text : String
  ast : File
  symbols : List SymbolInfo
  version : Int

/-- TextDocumentItem (lsp.go): the decoded request body of the
open/change/close handlers. -/
structure TextDocumentItem where
  uri : String
  text : String
  version : Int

/-- LanguageServer (lsp.go): the document map. -/
structure LanguageServer where
  documents : List (String × Document)

/-- NewLanguageServer: empty document map. -/
def NewLanguageServer : LanguageServer :=
  { documents := [] }

/-- `nodeToString` (lsp.go) — a smaller sibling of `getTypeString`. -/
def nodeToString : Expr → String
  | .ident n _ => n
  | .star x => "*" ++ nodeToString x
  | .arrayType e => "[]" ++ nodeToString e
  | .selector x s => nodeToString x ++ "." ++ s
  | e => goTypeName e

/-- `getFunctionSignature` (lsp.go).  Unlike its ast.go namesake, the
parameter loop iterates only over named parameters (an unnamed
parameter contributes nothing), and there is no receiver part. -/
def lspGetFunctionSignature (fd : FuncDecl) : String :=
  let params := ((fd.params.map (fun p =>
    match p with
    | .mk names typ _ _ => names.map (fun n => n ++ " " ++ nodeToString typ))).flatten)
  let returns := ((fd.results.map (fun r =>
    match r with
    | .mk names typ _ _ =>
        if names.isEmpty then [nodeToString typ]
        else names.map (fun n => n ++ " " ++ nodeToString typ))).flatten)
  let base := "func " ++ fd.name ++ "(" ++ String.intercalate ", " params ++ ")"
  match returns with
  | [] => base
  | [r] => base ++ " " ++ r
  | _ => base ++ " (" ++ String.intercalate ", " returns ++ ")"

/-- The per-node case of `extractSymbols`' `ast.Inspect` callback. -/
def symbolOf (f : File) : Node → Option SymbolInfo
  | .declN (.funcDecl fd) =>
      some { name := fd.name
             kind := "function"
             location := locationOf f fd.pos fd.endP
             signature := lspGetFunctionSignature fd }
  | .specN (.typeSpec d) =>
      some { name := d.name
             kind := "type"
             location := locationOf f d.pos d.endP
             signature := "" }
  | _ => none

/-- `extractSymbols` (lsp.go): one symbol per walked FuncDecl
(kind "function", with signature) and per walked TypeSpec
(kind "type") — and nothing else: in particular no variable symbols. -/
def extractSymbols (f : File) : List SymbolInfo :=
  (fileNodes f).filterMap (symbolOf f)

/-- The failure modes of `parseDocument`: a syntax error from the
parser, or the nil-pointer dereference of
`ls.documents[uri].Version` when `uri` is not in the document map
(a `map[string]*Document` lookup of an absent key yields a nil
pointer, and selecting `.Version` on it panics). -/
inductive LspError : Type where
  | parseError (msg : String)
  | nilDereference
deriving DecidableEq, Repr

/-- `parseDocument` (lsp.go): parse, extract symbols, then store
`Document{..., Version: ls.documents[uri].Version + 1}`.  The stored
version is the previous entry's version plus one — the caller-supplied
version is never consulted — and when there is no previous entry the
version read panics (modelled as `LspError.nilDereference`). -/
def parseDocument (P : String → String → Except String File)
    (ls : LanguageServer) (uri content : String) :
    Except LspError LanguageServer :=
  match P uri content with
  | .error e => .error (.parseError ("failed to parse document: " ++ e))
  | .ok file =>
      let symbols := extractSymbols file
      match lookupA ls.documents uri with
      | none => .error .nilDereference
      | some old =>
          .ok { documents :=
                  insertA ls.documents uri
                    { uri := uri, text := content, ast := file,
                      symbols := symbols, version := old.version + 1 } }

/-- The responses the LSP handlers write. -/
inductive LspResponse : Type where
  | opened (uri : String)
  | changed (uri : String)
  | closed (uri : String)
  | symbols (l : List SymbolInfo)
  | internalError (e : LspError)
  | notFound
  | badRequest

/-- `handleOpenDocument` (lsp.go): runs `parseDocument` on the
request's uri and text (`doc.Version` is ignored); on failure the
server state is left as it was. -/
def handleOpenDocument (P : String → String → Except String File)
    (ls : LanguageServer) (doc : TextDocumentItem) :
    LspResponse × LanguageServer :=
  match parseDocument P ls doc.uri doc.text with
  | .error e => (.internalError e, ls)
  | .ok ls' => (.opened doc.uri, ls')

/-- `handleChangeDocument` (lsp.go): identical to open except for the
success status. -/
def handleChangeDocument (P : String → String → Except String File)
    (ls : LanguageServer) (doc : TextDocumentItem) :
    LspResponse × LanguageServer :=
  match parseDocument P ls doc.uri doc.text with
  | .error e => (.internalError e, ls)
  | .ok ls' => (.changed doc.uri, ls')

/-- `delete(m, k)` on the document map. -/
def eraseA {α : Type} : List (String × α) → String → List (String × α)
  | [], _ => []
  | (k', v) :: t, k => if k' = k then t else (k', v) :: eraseA t k

/-- `handleCloseDocument` (lsp.go): delete the entry, report closed. -/
def handleCloseDocument (ls : LanguageServer) (doc : TextDocumentItem) :
    LspResponse × LanguageServer :=
  (.closed doc.uri, { documents := eraseA ls.documents doc.uri })

/-- `handleDocumentSymbols` (lsp.go): empty uri is a bad request, an
absent document is not found, otherwise the stored symbols are
returned without recomputation. -/
def handleDocumentSymbols (ls : LanguageServer) (uri : String) : LspResponse :=
  if uri = "" then .badRequest
  else
    match lookupA ls.documents uri with
    | none => .notFound
    | some doc => .symbols doc.symbols

/-! ## Lemmas about the Go-map model -/

theorem insertAll_nil {α : Type} (m : List (String × α)) : insertAll m [] = m := rfl

theorem insertAll_cons {α : Type} (m : List (String × α)) (p : String × α)
    (l : List (String × α)) :
    insertAll m (p :: l) = insertAll (insertA m p.1 p.2) l := rfl

theorem lookupA_insertA {α : Type} (m : List (String × α)) (k : String) (v : α)
    (x : String) :
    lookupA (insertA m k v) x = if k = x then some v else lookupA m x := by
  induction m with
  | nil => by_cases h : k = x <;> simp [insertA, lookupA, h]
  | cons kv t ih =>
      obtain ⟨k', v'⟩ := kv
      by_cases h1 : k' = k
      · by_cases h2 : k = x
        · simp [insertA, lookupA, h1, h2]
        · have h3 : ¬ k' = x := fun he => h2 (h1.symm.trans he)
          simp [insertA, lookupA, h1, h2, h3]
      · by_cases h2 : k' = x
        · have h3 : ¬ k = x := fun he => h1 (h2.trans he.symm)
          have h4 : ¬ x = k := fun he => h3 he.symm
          simp [insertA, lookupA, h1, h2, h3, h4]
        · simp [insertA, lookupA, h1, h2, ih]

theorem insertA_self {α : Type} (m : List (String × α)) (k : String) (v : α)
    (h : lookupA m k = some v) : insertA m k v = m := by
  induction m with
  | nil => simp [lookupA] at h
  | cons kv t ih =>
      obtain ⟨k', v'⟩ := kv
      by_cases h1 : k' = k
      · subst h1
        simp [lookupA] at h
        simp [insertA, h]
      · simp [lookupA, h1] at h
        simp [insertA, h1, ih h]

theorem insertA_insertA {α : Type} (m : List (String × α)) (k : String) (v w : α) :
    insertA (insertA m k v) k w = insertA m k w := by
  induction m with
  | nil => simp [insertA]
  | cons kv t ih =>
      obtain ⟨k', v'⟩ := kv
      by_cases h1 : k' = k
      · subst h1; simp [insertA]
      · simp [insertA, h1, ih]

theorem insertA_comm {α : Type} (m : List (String × α)) (k j : String) (v w : α)
    (hk : lookupA m k ≠ none) (hne : j ≠ k) :
    insertA (insertA m k v) j w = insertA (insertA m j w) k v := by
  induction m with
  | nil => simp [lookupA] at hk
  | cons kv t ih =>
      obtain ⟨k', v'⟩ := kv
      by_cases h1 : k' = k
      · have hkj : ¬ k' = j := fun he => hne (he.symm.trans h1)
        have hkj2 : ¬ k = j := fun he => hne he.symm
        simp [insertA, h1, hkj, hkj2]
      · by_cases h2 : k' = j
        · have hjk : ¬ j = k := hne
          simp [insertA, h1, h2, hjk]
        · simp [lookupA, h1] at hk
          simp [insertA, h1, h2, ih hk]

theorem lookupA_insertA_ne {α : Type} (m : List (String × α)) (k j : String) (w : α)
    (hne : j ≠ k) : lookupA (insertA m j w) k = lookupA m k := by
  rw [lookupA_insertA]
  simp [hne]

theorem lookupA_insertAll_of_not_mem {α : Type} (m : List (String × α))
    (l : List (String × α)) (k : String) (h : ∀ p ∈ l, p.1 ≠ k) :
    lookupA (insertAll m l) k = lookupA m k := by
  induction l generalizing m with
  | nil => rfl
  | cons p t ih =>
      rw [insertAll_cons, ih _ (fun q hq => h q (List.mem_cons_of_mem p hq)),
        lookupA_insertA_ne]
      exact h p (List.mem_cons_self p t)

theorem lookupA_insertAll_ne_none {α : Type} (m : List (String × α))
    (l : List (String × α)) (k : String) (h : lookupA m k ≠ none) :
    lookupA (insertAll m l) k ≠ none := by
  induction l generalizing m with
  | nil => exact h
  | cons p t ih =>
      rw [insertAll_cons]
      refine ih _ ?_
      rw [lookupA_insertA]
      by_cases hpk : p.1 = k <;> simp [hpk, h]

theorem insertAll_insertA_of_mem {α : Type} (m : List (String × α))
    (l : List (String × α)) (k : String) (v : α)
    (hmem : k ∈ l.map Prod.fst) (hk : lookupA m k ≠ none) :
    insertAll (insertA m k v) l = insertAll m l := by
  induction l generalizing m with
  | nil => simp at hmem
  | cons p t ih =>
      obtain ⟨j, w⟩ := p
      rw [insertAll_cons, insertAll_cons]
      by_cases hjk : j = k
      · subst hjk
        simp only []
        rw [insertA_insertA]
      · have hmem' : k ∈ t.map Prod.fst := by
          simp at hmem
          rcases hmem with h | h
          · exact absurd h.symm hjk
          · simpa using h
        have hk' : lookupA (insertA m j w) k ≠ none := by
          rw [lookupA_insertA_ne _ _ _ _ hjk]; exact hk
        calc insertAll (insertA (insertA m k v) j w) t
            = insertAll (insertA (insertA m j w) k v) t := by
              rw [insertA_comm _ _ _ _ _ hk hjk]
          _ = insertAll (insertA m j w) t := ih _ hmem' hk'

/-- Re-running the same sequence of map assignments is a no-op:
the second pass rewrites every key to the value it already has. -/
theorem insertAll_idem {α : Type} (m : List (String × α)) (l : List (String × α)) :
    insertAll (insertAll m l) l = insertAll m l := by
  induction l generalizing m with
  | nil => rfl
  | cons p t ih =>
      obtain ⟨k, v⟩ := p
      rw [insertAll_cons, insertAll_cons]
      by_cases hmem : k ∈ t.map Prod.fst
      · have hk : lookupA (insertAll (insertA m k v) t) k ≠ none := by
          refine lookupA_insertAll_ne_none _ _ _ ?_
          rw [lookupA_insertA]
          simp
        rw [insertAll_insertA_of_mem _ _ _ _ hmem hk]
        exact ih _
      · have hnot : ∀ p ∈ t, p.1 ≠ k := by
          intro q hq hqk
          exact hmem (hqk ▸ List.mem_map_of_mem Prod.fst hq)
        have hlk : lookupA (insertAll (insertA m k v) t) k = some v := by
          rw [lookupA_insertAll_of_not_mem _ _ _ hnot, lookupA_insertA]
          simp
        rw [insertA_self _ _ _ hlk]
        exact ih _

theorem insertAll_nil_cons_of_not_mem {α : Type} (m : List (String × α))
    (l : List (String × α)) (k : String) (v : α) (h : ∀ p ∈ l, p.1 ≠ k) :
    insertAll ((k, v) :: m) l = (k, v) :: insertAll m l := by
  induction l generalizing m with
  | nil => rfl
  | cons p t ih =>
      obtain ⟨j, w⟩ := p
      have hjk : j ≠ k := h (j, w) (List.mem_cons_self _ _)
      have hkj : ¬ k = j := fun he => hjk he.symm
      rw [insertAll_cons, insertAll_cons]
      simp only [insertA, if_neg hkj]
      exact ih _ (fun q hq => h q (List.mem_cons_of_mem _ hq))

/-- Inserting pairs with pairwise-distinct keys into the empty map
yields exactly those pairs. -/
theorem insertAll_empty_of_nodup {α : Type} (l : List (String × α))
    (h : (l.map Prod.fst).Nodup) : insertAll ([] : List (String × α)) l = l := by
  induction l with
  | nil => rfl
  | cons p t ih =>
      obtain ⟨k, v⟩ := p
      simp only [List.map_cons, List.nodup_cons] at h
      have hnot : ∀ q ∈ t, q.1 ≠ k := by
        intro q hq hqk
        exact h.1 (hqk ▸ List.mem_map_of_mem Prod.fst hq)
      rw [insertAll_cons]
      show insertAll ((k, v) :: []) t = (k, v) :: t
      rw [insertAll_nil_cons_of_not_mem _ _ _ _ hnot, ih h.2]

/-! ## Concrete example sources -/

/-- Shorthand for an identifier expression at a position. -/
def idn (s : String) (l c : Int) : Expr := .ident s ⟨l, c⟩

/-- The parse tree of `package main` with no declarations. -/
def emptyMainFile : File :=
  { pkgName := "main", pkgNamePos := ⟨1, 9⟩, decls := [], endLine := 1 }

/-- The exported, undocumented function of the end-to-end example:
`func Exported(b bool) { if b { fmt.Println(b) } }` — one `if`
statement, whose condition is a plain identifier. -/
def exportedFD : FuncDecl :=
  { name := "Exported", namePos := ⟨6, 6⟩, doc := none, recv := none
    params := [.mk ["b"] (idn "bool" 6 17) none none]
    results := []
    body :=
      [ .ifStmt none (idn "b" 7 5)
          [.exprStmt (.call (.selector (idn "fmt" 8 3) "Println") [idn "b" 8 15])]
          none ]
    pos := ⟨6, 1⟩, endP := ⟨10, 2⟩ }

/-- The unexported function of the end-to-end example:
`func helper() {}`. -/
def helperFD : FuncDecl :=
  { name := "helper", namePos := ⟨12, 6⟩, doc := none, recv := none
    params := [], results := [], body := [], pos := ⟨12, 1⟩, endP := ⟨13, 2⟩ }

/-- The spec's concrete end-to-end source: package main, imports of
`fmt` and `os`, then `Exported` and `helper` as above.  `fmt` is
referenced by the qualified call `fmt.Println`; `os` is never
referenced. -/
def endToEndFile : File :=
  { pkgName := "main"
    pkgNamePos := ⟨1, 9⟩
    decls :=
      [ .genDecl .importTok [.importSpec ⟨none, quoted "fmt", ⟨3, 8⟩⟩]
      , .genDecl .importTok [.importSpec ⟨none, quoted "os", ⟨4, 8⟩⟩]
      , .funcDecl exportedFD
      , .funcDecl helperFD ]
    endLine := 13 }

/-! ## Claim C2 -/

/-- Claim C2 (code evidence): `openDocument` on a uri that is absent
from the document map reaches `ls.documents[uri].Version + 1`, whose
map lookup yields a nil `*Document`; selecting `.Version` on it is a
nil-pointer dereference, so the operation does not succeed and stores
nothing — for any text the parser accepts.  (Independently, the
supplied version is never stored: the stored version is the previous
entry's version plus one.) -/
theorem claim_C2 (P : String → String → Except String File)
    (ls : LanguageServer) (uri content : String) (file : File)
    (hP : P uri content = Except.ok file)
    (habsent : lookupA ls.documents uri = none) :
    parseDocument P ls uri content = Except.error LspError.nilDereference := by
  unfold parseDocument
  rw [hP, habsent]

/-- Witness for claim C2 at a concrete input: a fresh server, a parser
accepting `package main`. -/
theorem claim_C2_witness :
    ((fun _ _ => Except.ok emptyMainFile) : String → String → Except String File)
        "file:///a.go" "package main" = Except.ok emptyMainFile ∧
    lookupA NewLanguageServer.documents "file:///a.go" = none ∧
    parseDocument (fun _ _ => Except.ok emptyMainFile) NewLanguageServer
        "file:///a.go" "package main" = Except.error LspError.nilDereference :=
  ⟨rfl, rfl, claim_C2 _ _ _ _ emptyMainFile rfl rfl⟩

/-! ## Claim C3 -/

/-- Claim C3: `changeDocument` on an open document whose new text fails
to parse reports the syntax error to the caller and leaves the server
state — hence the stored text, version, AST and symbols of every
document — exactly as it was. -/
theorem claim_C3 (P : String → String → Except String File)
    (ls : LanguageServer) (doc : TextDocumentItem) (msg : String) (d : Document)
    (_hopen : lookupA ls.documents doc.uri = some d)
    (hP : P doc.uri doc.text = Except.error msg) :
    handleChangeDocument P ls doc =
      (LspResponse.internalError
        (.parseError ("failed to parse document: " ++ msg)), ls) := by
  unfold handleChangeDocument parseDocument
  rw [hP]

/-- A parser that rejects everything with a fixed syntax error. -/
def rejectAllP : String → String → Except String File :=
  fun _ _ => Except.error "1:1: expected declaration"

/-- A document for `file:///a.go` as stored after a successful open. -/
def docA : Document :=
  { uri := "file:///a.go", text := "package main", ast := emptyMainFile
    symbols := extractSymbols emptyMainFile, version := 1 }

/-- A server with `file:///a.go` open. -/
def serverA : LanguageServer :=
  { documents := [("file:///a.go", docA)] }

/-- Witness for claim C3 at a concrete input: a server with one open
document and a change whose text fails to parse. -/
theorem claim_C3_witness :
    lookupA serverA.documents "file:///a.go" = some docA ∧
    rejectAllP "file:///a.go" "func (" = Except.error "1:1: expected declaration" ∧
    handleChangeDocument rejectAllP serverA ⟨"file:///a.go", "func (", 2⟩ =
      (LspResponse.internalError
        (.parseError "failed to parse document: 1:1: expected declaration"),
       serverA) :=
  ⟨rfl, rfl, claim_C3 rejectAllP serverA ⟨"file:///a.go", "func (", 2⟩ _ docA rfl rfl⟩

/-! ## Claim C9: consequences of the never-populated type information -/

/-- With an empty `Uses` map, no node passes `importUseCheck`. -/
theorem importUseCheck_empty (a : ASTAnalyzer) (p : String) (n : Node)
    (huses : a.typeInfo.uses = []) : importUseCheck a p n = false := by
  cases n <;> try rfl
  case exprN e =>
    cases e <;> try rfl
    case selector x s =>
      cases x <;> simp [importUseCheck, huses, lookupA]

/-- With an empty `Uses` map, `isImportUsed` is false for every path. -/
theorem isImportUsed_empty (a : ASTAnalyzer) (f : File) (p : String)
    (huses : a.typeInfo.uses = []) : isImportUsed a f p = false := by
  unfold isImportUsed
  rw [List.any_eq_false]
  intro n _
  simp [importUseCheck_empty a p n huses]

/-- Folding a function that never changes the accumulator. -/
theorem foldl_id {α β : Type} (l : List β) (g : α → β → α)
    (h : ∀ a b, g a b = a) (a : α) : l.foldl g a = a := by
  induction l generalizing a with
  | nil => rfl
  | cons b t ih => rw [List.foldl_cons, h a b, ih]

/-- With an empty `Defs` map the definition pass does nothing. -/
theorem refDefStep_empty (a : ASTAnalyzer) (f : File)
    (m : List (String × ReferenceInfo)) (np : String × Pos)
    (hdefs : a.typeInfo.defs = []) : refDefStep a f m np = m := by
  unfold refDefStep
  rw [hdefs]
  rfl

/-- With an empty `Uses` map the use pass does nothing. -/
theorem refUseStep_empty (a : ASTAnalyzer) (f : File)
    (m : List (String × ReferenceInfo)) (np : String × Pos)
    (huses : a.typeInfo.uses = []) : refUseStep a f m np = m := by
  unfold refUseStep
  rw [huses]
  rfl

/-- With empty `Defs` and `Uses` maps, both passes of
`analyzeReferences` leave the reference map empty. -/
theorem analyzeReferences_empty (a : ASTAnalyzer) (f : File)
    (hdefs : a.typeInfo.defs = []) (huses : a.typeInfo.uses = []) :
    analyzeReferences a f = [] := by
  unfold analyzeReferences
  rw [foldl_id _ _ (fun m np => refDefStep_empty a f m np hdefs),
    foldl_id _ _ (fun m np => refUseStep_empty a f m np huses)]
  rfl

/-- With an empty `Uses` map, the unused-import rule fires for
every import of the file. -/
theorem unusedImportRule_empty (a : ASTAnalyzer) (f : File)
    (huses : a.typeInfo.uses = []) :
    unusedImportRule a f = (fileImports f).map (unusedImportDiag f) := by
  unfold unusedImportRule
  rw [List.filterMap_eq_map_iff_forall_eq_some.mpr]
  intro imp _
  rw [isImportUsed_empty a f _ huses]
  simp

/-- Every diagnostic produced by the missing-doc rule carries the code
`missing-doc`. -/
theorem missingDocRule_code (f : File) (d : Diagnostic)
    (hd : d ∈ missingDocRule f) : d.code = "missing-doc" := by
  unfold missingDocRule at hd
  obtain ⟨n, hmem, hn⟩ := List.mem_filterMap.mp hd
  clear hmem hd
  cases n <;> simp at hn
  case declN dc =>
    cases dc <;> simp at hn
    case funcDecl fd =>
      obtain ⟨-, rfl⟩ := hn
      rfl

/-- Claim C9: on any analyzer whose `Defs` and `Uses` maps are empty —
as `NewASTAnalyzer` creates them, and no code path ever inserts into
them — `AnalyzeFile` returns an empty References list, marks every
ImportInfo unused, emits exactly one unused-import diagnostic per
file import, leaves the type information unchanged (so the emptiness is an
invariant of repeated analysis), and `AnalyzeDependencies` returns an
empty map. -/
theorem claim_C9 (a : ASTAnalyzer) (f : File)
    (hdefs : a.typeInfo.defs = []) (huses : a.typeInfo.uses = []) :
    (AnalyzeFile a f).1.references = [] ∧
    (∀ imp ∈ (AnalyzeFile a f).1.imports, imp.used = false) ∧
    ((AnalyzeFile a f).1.diagnostics.countP
        (fun d => d.code == "unused-import")) = (fileImports f).length ∧
    (AnalyzeFile a f).2.typeInfo = a.typeInfo ∧
    AnalyzeDependencies a f = [] := by
  refine ⟨?_, ?_, ?_, ?_, ?_⟩
  · show analyzeReferences a f = []
    exact analyzeReferences_empty a f hdefs huses
  · show ∀ imp ∈ analyzeImports a f, imp.used = false
    intro imp himp
    obtain ⟨i, _, rfl⟩ := List.mem_map.mp himp
    simp [isImportUsed_empty a f _ huses]
  · show ((runDiagnostics a f).countP (fun d => d.code == "unused-import"))
        = (fileImports f).length
    unfold runDiagnostics
    rw [List.countP_append, unusedImportRule_empty a f huses, List.countP_map]
    rw [List.countP_eq_length.mpr (by intro i _; rfl)]
    rw [List.countP_eq_zero.mpr, Nat.add_zero]
    intro d hd
    rw [missingDocRule_code f d hd]
    simp
  · rfl
  · unfold AnalyzeDependencies
    apply foldl_id
    intro deps imp
    simp [isImportUsed_empty a f _ huses]

/-- Witness for claim C9 at a concrete input: the fresh analyzer on
the end-to-end file (whose `fmt` import IS referenced by a qualified
call — it is still reported unused). -/
theorem claim_C9_witness :
    NewASTAnalyzer.typeInfo.defs = [] ∧
    NewASTAnalyzer.typeInfo.uses = [] ∧
    ((AnalyzeFile NewASTAnalyzer endToEndFile).1.references = [] ∧
     (∀ imp ∈ (AnalyzeFile NewASTAnalyzer endToEndFile).1.imports, imp.used = false) ∧
     ((AnalyzeFile NewASTAnalyzer endToEndFile).1.diagnostics.countP
         (fun d => d.code == "unused-import")) = (fileImports endToEndFile).length ∧
     (AnalyzeFile NewASTAnalyzer endToEndFile).2.typeInfo = NewASTAnalyzer.typeInfo ∧
     AnalyzeDependencies NewASTAnalyzer endToEndFile = []) :=
  ⟨rfl, rfl, claim_C9 NewASTAnalyzer endToEndFile rfl rfl⟩

/-! ## Claim C1 -/

/-- Claim C1 (code evidence): on the spec's concrete end-to-end case
the analyzer returns 2 FunctionInfos, complexity 2 for `Exported`
(base 1 + 1 for the `if`) and exactly one missing-doc diagnostic — but
TWO unused-import diagnostics, not one: the `fmt` import is reported
unused despite the qualified call `fmt.Println`, because the `Uses`
map that `isImportUsed` consults is never populated. -/
theorem claim_C1 :
    (AnalyzeFile NewASTAnalyzer endToEndFile).1.functions.length = 2 ∧
    (AnalyzeFile NewASTAnalyzer endToEndFile).1.functions.map
        (fun fi => (fi.name, fi.complexity)) = [("Exported", 2), ("helper", 1)] ∧
    (AnalyzeFile NewASTAnalyzer endToEndFile).1.diagnostics.countP
        (fun d => d.code == "unused-import") = 2 ∧
    (AnalyzeFile NewASTAnalyzer endToEndFile).1.diagnostics.countP
        (fun d => d.code == "missing-doc") = 1 :=
  ⟨rfl, rfl, rfl, rfl⟩

/-! ## Claim C5 -/

/-- The boolean binary operators `&&` and `||`. -/
def isBooleanOp : BinOp → Bool
  | .land => true
  | .lor => true
  | _ => false

/-- The node kinds enumerated by the spec sentence, reading "boolean
binary operator" literally: conditional branches, loops, case arms,
and only `&&`/`||` among binary expressions. -/
def isSpecComplexityNode : Node → Bool
  | .stmtN (.ifStmt _ _ _ _) => true
  | .stmtN (.forStmt _ _ _ _) => true
  | .stmtN (.rangeStmt _ _ _ _) => true
  | .caseN _ => true
  | .commN _ => true
  | .exprN (.binary op _ _) => isBooleanOp op
  | _ => false

/-- Function complexity as the spec sentence literally states it. -/
def complexitySpecWords (fd : FuncDecl) : Nat :=
  1 + (funcDeclNodes fd).countP isSpecComplexityNode

/-- `func add(x, y int) int { return x + y }`: no branch, loop or case
arm, one arithmetic (non-boolean) binary operator. -/
def addFD : FuncDecl :=
  { name := "add", namePos := ⟨3, 6⟩, doc := none, recv := none
    params := [.mk ["x", "y"] (idn "int" 3 10) none none]
    results := [.mk [] (idn "int" 3 18) none none]
    body := [.returnStmt [.binary .add (idn "x" 4 9) (idn "y" 4 13)]]
    pos := ⟨3, 1⟩, endP := ⟨5, 2⟩ }

/-- Counterexample to claim C5 as stated: `add` has computed complexity
2, while 1 plus one increment per conditional branch, loop, case arm
or boolean binary operator is 1 — an arithmetic `+` also contributes,
so "nothing else contributes" fails. -/
theorem claim_C5_counterexample :
    calculateFunctionComplexity addFD = 2 ∧ complexitySpecWords addFD = 1 :=
  ⟨rfl, rfl⟩

/-- Walked if-statement nodes. -/
def isIfNode : Node → Bool
  | .stmtN (.ifStmt _ _ _ _) => true
  | _ => false

/-- Walked for-statement nodes. -/
def isForNode : Node → Bool
  | .stmtN (.forStmt _ _ _ _) => true
  | _ => false

/-- Walked range-statement nodes. -/
def isRangeNode : Node → Bool
  | .stmtN (.rangeStmt _ _ _ _) => true
  | _ => false

/-- Walked switch case-arm nodes. -/
def isCaseClauseNode : Node → Bool
  | .caseN _ => true
  | _ => false

/-- Walked select case-arm nodes. -/
def isCommClauseNode : Node → Bool
  | .commN _ => true
  | _ => false

/-- Walked binary-expression nodes, of any operator. -/
def isBinaryNode : Node → Bool
  | .exprN (.binary _ _ _) => true
  | _ => false

/-- The complexity predicate splits as the disjoint sum of the six
counted node kinds. -/
theorem countP_complexity_split (l : List Node) :
    l.countP isComplexityNode =
      l.countP isIfNode + l.countP isForNode + l.countP isRangeNode +
      l.countP isCaseClauseNode + l.countP isCommClauseNode +
      l.countP isBinaryNode := by
  induction l with
  | nil => rfl
  | cons n t ih =>
      simp only [List.countP_cons]
      cases n with
      | stmtN s =>
          cases s <;>
            simp [isComplexityNode, isIfNode, isForNode, isRangeNode,
              isCaseClauseNode, isCommClauseNode, isBinaryNode] <;> omega
      | exprN e =>
          cases e <;>
            simp [isComplexityNode, isIfNode, isForNode, isRangeNode,
              isCaseClauseNode, isCommClauseNode, isBinaryNode] <;> omega
      | _ =>
          simp [isComplexityNode, isIfNode, isForNode, isRangeNode,
            isCaseClauseNode, isCommClauseNode, isBinaryNode]
          omega

/-- Claim C5 (amended): the computed cyclomatic complexity equals 1
plus one increment for every conditional branch (if), loop (for,
range), case arm (switch case, select comm) and EVERY binary operator
node — boolean or not — in the function's subtree, and nothing else
contributes. -/
theorem claim_C5 (fd : FuncDecl) :
    calculateFunctionComplexity fd =
      1 + ((funcDeclNodes fd).countP isIfNode +
        (funcDeclNodes fd).countP isForNode +
        (funcDeclNodes fd).countP isRangeNode +
        (funcDeclNodes fd).countP isCaseClauseNode +
        (funcDeclNodes fd).countP isCommClauseNode +
        (funcDeclNodes fd).countP isBinaryNode) := by
  unfold calculateFunctionComplexity
  rw [countP_complexity_split]

/-! ## Claim C6 -/

/-- Claim C6: every FunctionInfo in any analysis result has
complexity ≥ 1 (base cost 1, increments are non-negative). -/
theorem claim_C6 (a : ASTAnalyzer) (f : File) (fi : FunctionInfo)
    (h : fi ∈ (AnalyzeFile a f).1.functions) : 1 ≤ fi.complexity := by
  have h' : fi ∈ (collectFuncDecls f).map (functionInfoOf f) := h
  obtain ⟨fd, _, rfl⟩ := List.mem_map.mp h'
  show 1 ≤ calculateFunctionComplexity fd
  unfold calculateFunctionComplexity
  exact Nat.le_add_right 1 _

/-- Witness for claim C6 at a concrete input: `Exported` of the
end-to-end file. -/
theorem claim_C6_witness :
    functionInfoOf endToEndFile exportedFD ∈
        (AnalyzeFile NewASTAnalyzer endToEndFile).1.functions ∧
    1 ≤ (functionInfoOf endToEndFile exportedFD).complexity :=
  ⟨List.Mem.head _, claim_C6 NewASTAnalyzer endToEndFile _ (List.Mem.head _)⟩

/-! ## Claim C7 -/

/-- Claim C7: analyzing the same file twice on the same analyzer
instance with no intervening analyses yields field-for-field identical
AnalysisResults: every field except the metrics is a pure function of
the file and the (unchanged) type information, and re-inserting the
same (name, complexity) pairs leaves the complexity map — hence the
ComplexityScore — unchanged.  The References list (provably empty on
every reachable state) is reproduced with the same order. -/
theorem claim_C7 (a : ASTAnalyzer) (f : File) :
    (AnalyzeFile (AnalyzeFile a f).2 f).1 = (AnalyzeFile a f).1 := by
  simp only [AnalyzeFile, analyzeFunctions, calculateMetrics]
  rw [insertAll_idem]
  rfl

/-! ## Claim C8 -/

/-- `func (a A) String() string { return "a" }`. -/
def methodStringA : FuncDecl :=
  { name := "String", namePos := ⟨3, 12⟩, doc := none
    recv := some (.mk ["a"] (idn "A" 3 9) none none)
    params := [], results := [.mk [] (idn "string" 3 21) none none]
    body := [.returnStmt [.basicLit (quoted "a")]], pos := ⟨3, 1⟩, endP := ⟨3, 42⟩ }

/-- `func (b B) String() string { return "b" }`. -/
def methodStringB : FuncDecl :=
  { name := "String", namePos := ⟨4, 12⟩, doc := none
    recv := some (.mk ["b"] (idn "B" 4 9) none none)
    params := [], results := [.mk [] (idn "string" 4 21) none none]
    body := [.returnStmt [.basicLit (quoted "b")]], pos := ⟨4, 1⟩, endP := ⟨4, 42⟩ }

/-- A legal Go file in which two function declarations share the name
`String` (methods of two different receiver types):

```
package main

func (a A) String() string { return "a" }
func (b B) String() string { return "b" }
```
-/
def sharedNameFile : File :=
  { pkgName := "main", pkgNamePos := ⟨1, 9⟩
    decls := [.funcDecl methodStringA, .funcDecl methodStringB]
    endLine := 4 }

/-- Counterexample to claim C8 as stated: with two functions sharing
the name `String`, the name-keyed complexity map keeps a single entry,
so the ComplexityScore is 1 while the FunctionInfo complexities sum
to 2. -/
theorem claim_C8_counterexample :
    (((AnalyzeFile NewASTAnalyzer sharedNameFile).1.functions.map
        (fun fi => fi.complexity)).sum = 2) ∧
    (AnalyzeFile NewASTAnalyzer sharedNameFile).1.metrics.complexityScore = 1 :=
  ⟨rfl, rfl⟩

/-- Claim C8 (amended): on a freshly created analyzer, when the file's
function names are pairwise distinct the ComplexityScore equals the
sum of the Complexity values of exactly the FunctionInfo records of
the same result.  (A shared name collapses map entries, and an
analyzer that has analyzed other files before retains their entries in
the sum.) -/
theorem claim_C8 (f : File)
    (h : ((collectFuncDecls f).map (fun fd => fd.name)).Nodup) :
    (AnalyzeFile NewASTAnalyzer f).1.metrics.complexityScore =
      ((AnalyzeFile NewASTAnalyzer f).1.functions.map
        (fun fi => fi.complexity)).sum := by
  have hkeys : (((collectFuncDecls f).map
      (fun fd => (fd.name, calculateFunctionComplexity fd))).map Prod.fst).Nodup := by
    rw [List.map_map]
    exact h
  show sumValues (insertAll []
      ((collectFuncDecls f).map (fun fd => (fd.name, calculateFunctionComplexity fd)))) =
    (((collectFuncDecls f).map (functionInfoOf f)).map (fun fi => fi.complexity)).sum
  rw [insertAll_empty_of_nodup _ hkeys]
  unfold sumValues
  rw [List.map_map, List.map_map]
  rfl

/-- Witness for claim C8 at a concrete input: the end-to-end file,
whose function names `Exported` and `helper` are distinct. -/
theorem claim_C8_witness :
    ((collectFuncDecls endToEndFile).map (fun fd => fd.name)).Nodup ∧
    (AnalyzeFile NewASTAnalyzer endToEndFile).1.metrics.complexityScore =
      ((AnalyzeFile NewASTAnalyzer endToEndFile).1.functions.map
        (fun fi => fi.complexity)).sum :=
  ⟨by decide, claim_C8 endToEndFile (by decide)⟩

/-! ## Claim C4 -/

/-- The (name, kind) key of each symbol. -/
def symbolKeys (l : List SymbolInfo) : List (String × String) :=
  l.map (fun s => (s.name, s.kind))

/-- `package main` followed by `var x = 1`:

```
package main

var x = 1
```
-/
def varOnlyFile : File :=
  { pkgName := "main", pkgNamePos := ⟨1, 9⟩
    decls := [.genDecl .varTok
      [.valueSpec ⟨["x"], none, [.basicLit "1"], ⟨3, 5⟩, ⟨3, 10⟩⟩]]
    endLine := 3 }

/-- A parser that accepts everything as the var-only source. -/
def varOnlyP : String → String → Except String File :=
  fun _ _ => Except.ok varOnlyFile

/-- A server on which `file:///v.go` is already open (so that the
open does not hit the claim-C2 nil dereference). -/
def serverV : LanguageServer :=
  { documents := [("file:///v.go",
      { uri := "file:///v.go", text := "package main", ast := emptyMainFile
        symbols := extractSymbols emptyMainFile, version := 1 })] }

/-- Counterexample to claim C4 as stated: after opening the var-only
source, `getSymbols` returns no symbols at all, while the stateless
analysis of the same text has the variable `x` in its variable list —
`extractSymbols` emits function and type symbols only, so the two
symbol sets differ on any source declaring a variable. -/
theorem claim_C4_counterexample :
    handleDocumentSymbols
        (handleOpenDocument varOnlyP serverV ⟨"file:///v.go", "var x = 1", 2⟩).2
        "file:///v.go" = LspResponse.symbols [] ∧
    (AnalyzeFile NewASTAnalyzer varOnlyFile).1.vars.map
        (fun vi => (vi.name, "variable")) = [("x", "variable")] ∧
    (AnalyzeFile NewASTAnalyzer varOnlyFile).1.functions = [] ∧
    (AnalyzeFile NewASTAnalyzer varOnlyFile).1.types = [] :=
  ⟨rfl, rfl, rfl, rfl⟩

/-- Over any walked node list, the (name, kind) keys of the extracted
symbols are exactly the FuncDecl keys together with the TypeSpec
keys. -/
theorem symbolKeys_split (f : File) (l : List Node) :
    Multiset.ofList (symbolKeys (l.filterMap (symbolOf f))) =
      Multiset.ofList ((l.filterMap funcDeclOf).map
        (fun fd => (fd.name, "function"))) +
      Multiset.ofList ((l.filterMap typeSpecOf).map
        (fun d => (d.name, "type"))) := by
  induction l with
  | nil => rfl
  | cons n t ih =>
      cases n with
      | declN dc =>
          cases dc with
          | funcDecl fd =>
              simp only [List.filterMap_cons, symbolOf, funcDeclOf, typeSpecOf,
                symbolKeys, List.map_cons, ← Multiset.cons_coe, Multiset.cons_add]
              rw [Multiset.cons_inj_right]
              exact ih
          | genDecl tok specs =>
              simpa only [List.filterMap_cons, symbolOf, funcDeclOf, typeSpecOf]
                using ih
      | specN sp =>
          cases sp with
          | typeSpec d =>
              simp only [List.filterMap_cons, symbolOf, funcDeclOf, typeSpecOf,
                symbolKeys, List.map_cons, ← Multiset.cons_coe, Multiset.add_cons]
              rw [Multiset.cons_inj_right]
              exact ih
          | importSpec d =>
              simpa only [List.filterMap_cons, symbolOf, funcDeclOf, typeSpecOf]
                using ih
          | valueSpec d =>
              simpa only [List.filterMap_cons, symbolOf, funcDeclOf, typeSpecOf]
                using ih
      | exprN e =>
          simpa only [List.filterMap_cons, symbolOf, funcDeclOf, typeSpecOf] using ih
      | stmtN s =>
          simpa only [List.filterMap_cons, symbolOf, funcDeclOf, typeSpecOf] using ih
      | fieldN fd =>
          simpa only [List.filterMap_cons, symbolOf, funcDeclOf, typeSpecOf] using ih
      | caseN c =>
          simpa only [List.filterMap_cons, symbolOf, funcDeclOf, typeSpecOf] using ih
      | commN c =>
          simpa only [List.filterMap_cons, symbolOf, funcDeclOf, typeSpecOf] using ih
      | commentN ls =>
          simpa only [List.filterMap_cons, symbolOf, funcDeclOf, typeSpecOf] using ih

/-- The name of a TypeInfo is the name of its TypeSpec, whatever the
kind branch taken. -/
theorem typeInfoOf_name (f : File) (d : TypeSpecData) :
    (typeInfoOf f d).name = d.name := by
  unfold typeInfoOf
  split <;> rfl

/-- Claim C4 (amended): immediately after a successful
`openDocument(u, t, v)`, `getSymbols(u)` returns the stored symbols of
the new parse, and their (name, kind) set equals the union of the
FUNCTION and TYPE lists of the stateless analysis of the same parse
tree — the variable list is not represented among the symbols. -/
theorem claim_C4 (P : String → String → Except String File)
    (ls : LanguageServer) (uri text : String) (file : File) (d0 : Document)
    (hP : P uri text = Except.ok file)
    (hopen : lookupA ls.documents uri = some d0)
    (hne : uri ≠ "") :
    ∃ ls', parseDocument P ls uri text = Except.ok ls' ∧
      handleDocumentSymbols ls' uri = LspResponse.symbols (extractSymbols file) ∧
      Multiset.ofList (symbolKeys (extractSymbols file)) =
        Multiset.ofList ((AnalyzeFile NewASTAnalyzer file).1.functions.map
          (fun fi => (fi.name, "function"))) +
        Multiset.ofList ((AnalyzeFile NewASTAnalyzer file).1.types.map
          (fun ti => (ti.name, "type"))) := by
  refine ⟨⟨insertA ls.documents uri
      ⟨uri, text, file, extractSymbols file, d0.version + 1⟩⟩, ?_, ?_, ?_⟩
  · unfold parseDocument
    rw [hP, hopen]
  · unfold handleDocumentSymbols
    rw [if_neg hne, lookupA_insertA]
    simp
  · unfold extractSymbols
    rw [symbolKeys_split file (fileNodes file)]
    congr 1
    · show _ = Multiset.ofList (((collectFuncDecls file).map (functionInfoOf file)).map
        (fun fi => (fi.name, "function")))
      rw [List.map_map]
      rfl
    · show _ = Multiset.ofList (((collectTypeSpecs file).map (typeInfoOf file)).map
        (fun ti => (ti.name, "type")))
      rw [List.map_map]
      refine congrArg Multiset.ofList (List.map_congr_left ?_).symm
      intro d _
      show ((typeInfoOf file d).name, "type") = (d.name, "type")
      rw [typeInfoOf_name]

/-- Witness for claim C4 at a concrete input: opening the var-only
source over an already-open uri. -/
theorem claim_C4_witness :
    varOnlyP "file:///v.go" "var x = 1" = Except.ok varOnlyFile ∧
    (∃ d0, lookupA serverV.documents "file:///v.go" = some d0) ∧
    "file:///v.go" ≠ "" ∧
    (∃ ls', parseDocument varOnlyP serverV "file:///v.go" "var x = 1" = Except.ok ls' ∧
      handleDocumentSymbols ls' "file:///v.go" =
        LspResponse.symbols (extractSymbols varOnlyFile) ∧
      Multiset.ofList (symbolKeys (extractSymbols varOnlyFile)) =
        Multiset.ofList ((AnalyzeFile NewASTAnalyzer varOnlyFile).1.functions.map
          (fun fi => (fi.name, "function"))) +
        Multiset.ofList ((AnalyzeFile NewASTAnalyzer varOnlyFile).1.types.map
          (fun ti => (ti.name, "type")))) :=
  ⟨rfl, ⟨_, rfl⟩, by decide,
    claim_C4 varOnlyP serverV "file:///v.go" "var x = 1" varOnlyFile _ rfl rfl
      (by decide)⟩

/-! ## Claim C10 -/

/-- The same declaration with its keyword replaced (`const` ↔ `var`
etc.); function declarations have no keyword. -/
def retokDecl (t : DeclTok) : Decl → Decl
  | .funcDecl fd => .funcDecl fd
  | .genDecl _ specs => .genDecl t specs

/-- The same file with every declaration keyword replaced by `t`. -/
def retokFile (t : DeclTok) (f : File) : File :=
  { f with decls := f.decls.map (retokDecl t) }

/-- Replacing declaration keywords does not change the collected
ValueSpecs: `analyzeVariables` inspects `*ast.ValueSpec` nodes and
never the surrounding GenDecl's token. -/
theorem collectValueSpecs_retok (t : DeclTok) (f : File) :
    collectValueSpecs (retokFile t f) = collectValueSpecs f := by
  simp only [collectValueSpecs, retokFile, fileNodes, List.filterMap_flatten,
    List.map_map]
  congr 1
  apply List.map_congr_left
  intro d _
  cases d with
  | funcDecl fd => rfl
  | genDecl tok specs => rfl

/-- Claim C10: the Constant flag of every VariableInfo produced from a
ValueSpec is true exactly when the spec carries at least one
initializer value, and the whole variable analysis is unchanged when
every declaration keyword is replaced — the keyword is never
consulted. -/
theorem claim_C10 (t : DeclTok) (f : File) (vs : ValueSpecData) (vi : VariableInfo)
    (h : vi ∈ specVariables f vs) :
    (vi.constant = true ↔ vs.values ≠ []) ∧
    analyzeVariables (retokFile t f) = analyzeVariables f := by
  constructor
  · obtain ⟨n, _, rfl⟩ := List.mem_map.mp h
    show (!vs.values.isEmpty) = true ↔ vs.values ≠ []
    cases vs.values <;> simp
  · unfold analyzeVariables
    rw [collectValueSpecs_retok]
    rfl

/-- The ValueSpec of the var-only source. -/
def vsX : ValueSpecData :=
  ⟨["x"], none, [.basicLit "1"], ⟨3, 5⟩, ⟨3, 10⟩⟩

/-- The VariableInfo the analyzer produces for `var x = 1`. -/
def viX : VariableInfo :=
  { name := "x", typ := "unknown"
    location := { uri := "main"
                  range := { start := { line := 2, character := 4 }
                             endP := { line := 2, character := 9 } } }
    constant := true }

/-- Witness for claim C10 at a concrete input: the variable `x` of the
var-only source, and the keyword flip `var` → `const`. -/
theorem claim_C10_witness :
    viX ∈ specVariables varOnlyFile vsX ∧
    ((viX.constant = true ↔ vsX.values ≠ []) ∧
      analyzeVariables (retokFile DeclTok.constTok varOnlyFile) =
        analyzeVariables varOnlyFile) :=
  ⟨List.Mem.head _, claim_C10 DeclTok.constTok varOnlyFile vsX viX (List.Mem.head _)⟩

end GoMcp
